import Mathlib

/-!
Shallow embedding of the stateful daily staff-allocation engine from
`workforce_management/staff_assignment/manager.py` together with the data
model from `workforce_management/staff_assignment/models.py`.

Modelling conventions:
* Calendar dates (`datetime`) are abstract day identifiers of type `Nat`; the
  engine only ever compares dates for membership in a holiday list.
* Python `int` is `Int` (arbitrary precision in both).
* Python dicts keyed by staff name are total functions `String → Int` /
  `String → Bool`; after `reset_state` the key set of both dicts is exactly
  `staff_names`, and the source's `name in self.staff_workdays` membership
  guard is rendered as a `staff_names.contains` check.
* `list.sort(key=...)` is a stable sort by the key; it is modelled by
  `List.insertionSort` with the non-strict key comparison, which is stable,
  and the output of any stable sort by the same key coincides.
* Python slicing `l[:k]` (including its negative-index semantics) is
  `pyTake`.
* The `day_name` string (a `strftime` rendering of the date, or the caller's
  label) and the `verbose` printing are omitted: they are derived output
  carrying no decision logic.
-/

/-- `Staff` from models.py: employee id, display name and holiday dates. -/
structure Staff where
  employee_id : Int
  name : String
  holiday_dates : List Nat
  deriving DecidableEq

/-- `Staff.is_available` from models.py: `date not in self.holiday_dates`. -/
def Staff.is_available (s : Staff) (date : Nat) : Bool :=
  !(s.holiday_dates.contains date)

/-- `Assignment` from models.py (without the derived `day_name` label). -/
structure Assignment where
  date : Nat
  people_required : Int
  assigned_staff : List String
  assigned_count : Nat
  overtime : Bool
  shortage : Int
  deriving DecidableEq

/-- The state of a `StaffAssignmentManager` from manager.py.  The fields
`staff_names` and `staff_lookup` of the Python object are derived
write-once from `staff_list` in `__init__` and never mutated, so they are
rendered as functions of `staff_list` below rather than duplicated fields. -/
structure StaffAssignmentManager where
  staff_list : List Staff
  staff_workdays : String → Int
  staff_worked_yesterday : String → Bool
  assignment_history : List Assignment

/-- `self.staff_names = [staff.name for staff in staff_list]` (line 33). -/
def StaffAssignmentManager.staff_names (m : StaffAssignmentManager) : List String :=
  m.staff_list.map Staff.name

/-- `_create_staff_lookup` (line 41): `{staff.name: staff for staff in
self.staff_list}`; a later entry with the same name silently overwrites an
earlier one, as in a Python dict comprehension. -/
def staff_lookup (staff_list : List Staff) (name : String) : Option Staff :=
  staff_list.foldl (fun acc s => if s.name = name then some s else acc) none

/-- `__init__` (lines 25-37): store the staff list and reset all state.
The source performs no validation whatsoever: construction always
succeeds, in particular for duplicate names. -/
def mkManager (staff_list : List Staff) : StaffAssignmentManager :=
  { staff_list := staff_list
    staff_workdays := fun _ => 0
    staff_worked_yesterday := fun _ => false
    assignment_history := [] }

/-- `reset_state` (lines 43-47): zero all workday counters, clear all
"worked yesterday" flags, clear the history. -/
def reset_state (m : StaffAssignmentManager) : StaffAssignmentManager :=
  { m with
    staff_workdays := fun _ => 0
    staff_worked_yesterday := fun _ => false
    assignment_history := [] }

/-- `get_available_staff` (lines 68-82): names of staff not on holiday on
`date`, in registry insertion order. -/
def get_available_staff (staff_list : List Staff) (date : Nat) : List String :=
  (staff_list.filter (fun s => s.is_available date)).map Staff.name

/-- `get_eligible_staff` (lines 84-94): the available staff who did not work
on the previous processed day. -/
def get_eligible_staff (worked_yesterday : String → Bool)
    (available_staff : List String) : List String :=
  available_staff.filter (fun name => !(worked_yesterday name))

/-- The stable sort by ascending workday count used at lines 127 and 144
(`sort(key=lambda name: self.staff_workdays[name])`). -/
def sortByWorkdays (w : String → Int) (l : List String) : List String :=
  List.insertionSort (fun x y => w x ≤ w y) l

/-- Python list slicing `l[:k]` for an arbitrary `int` k: a nonnegative k
takes the first k elements (all of them when k exceeds the length); a
negative k drops the last |k| elements (empty when |k| ≥ length). -/
def pyTake {α : Type} (k : Int) (l : List α) : List α :=
  l.take (if 0 ≤ k then k.toNat else ((l.length : Int) + k).toNat)

/-- The available list of line 121 for manager `m` and the given date. -/
def available_for (m : StaffAssignmentManager) (date : Nat) : List String :=
  get_available_staff m.staff_list date

/-- The eligible list of line 124. -/
def eligible_for (m : StaffAssignmentManager) (date : Nat) : List String :=
  get_eligible_staff m.staff_worked_yesterday (available_for m date)

/-- The eligible list after the in-place sort of line 127. -/
def ranked_eligible_for (m : StaffAssignmentManager) (date : Nat) : List String :=
  sortByWorkdays m.staff_workdays (eligible_for m date)

/-- The available list after the in-place sort of line 144 (overtime
branch). -/
def ranked_available_for (m : StaffAssignmentManager) (date : Nat) : List String :=
  sortByWorkdays m.staff_workdays (available_for m date)

/-- `_update_state` (lines 176-190): recompute the "worked yesterday" flag
of every registry member (`name in assigned_staff`), then increment the
workday counter once per occurrence of a name in `assigned_staff`, guarded
by dict-key membership (`if name in self.staff_workdays`, whose key set
after `reset_state` is `staff_names`). -/
def update_state (m : StaffAssignmentManager) (assigned_staff : List String) :
    StaffAssignmentManager :=
  { m with
    staff_worked_yesterday := fun name =>
      if m.staff_names.contains name then assigned_staff.contains name
      else m.staff_worked_yesterday name
    staff_workdays := fun name =>
      if m.staff_names.contains name then
        m.staff_workdays name + (assigned_staff.count name : Int)
      else m.staff_workdays name }

/-- Steps 5-7 of `assign_staff_for_day` (lines 157-174): build the
`Assignment` record (shortage is `max(0, people_required -
len(available_staff))` in both branches, line 165), update the state, and
append the assignment to the history. -/
def mk_day_result (m : StaffAssignmentManager) (date : Nat)
    (people_required : Int) (assigned_staff : List String)
    (overtime_flag : Bool) : Assignment × StaffAssignmentManager :=
  let assignment : Assignment :=
    { date := date
      people_required := people_required
      assigned_staff := assigned_staff
      assigned_count := assigned_staff.length
      overtime := overtime_flag
      shortage := max 0 (people_required - ((available_for m date).length : Int)) }
  let m1 := update_state m assigned_staff
  (assignment, { m1 with assignment_history := m1.assignment_history ++ [assignment] })

/-- `assign_staff_for_day` (lines 96-174).  Branch of line 135: if
`people_required <= len(eligible_staff)` (the list already sorted in
place, same length), take the first slice of the ranked eligible list with
`overtime = False`; otherwise sort the available list and take a slice of
it with `overtime = True`. -/
def assign_staff_for_day (m : StaffAssignmentManager) (date : Nat)
    (people_required : Int) : Assignment × StaffAssignmentManager :=
  if people_required ≤ ((ranked_eligible_for m date).length : Int) then
    mk_day_result m date people_required
      (pyTake people_required (ranked_eligible_for m date)) false
  else
    mk_day_result m date people_required
      (pyTake people_required (ranked_available_for m date)) true

/-- The horizon loop of `assign_week` (lines 216-225): process an ordered
sequence of (date, people_required) day requests, threading the manager
state, and collect the per-day assignments in order. -/
def run_days : StaffAssignmentManager → List (Nat × Int) →
    List Assignment × StaffAssignmentManager
  | m, [] => ([], m)
  | m, (date, req) :: rest =>
    let day := assign_staff_for_day m date req
    let restRun := run_days day.2 rest
    (day.1 :: restRun.1, restRun.2)

/-! Structural lemmas about the engine, shared by the claim theorems. -/

/-- The sorted eligible list has the length of the eligible list. -/
theorem length_sortByWorkdays (w : String → Int) (l : List String) :
    (sortByWorkdays w l).length = l.length :=
  (List.perm_insertionSort _ l).length_eq

/-- Sorting does not change membership. -/
theorem mem_sortByWorkdays (w : String → Int) (l : List String) (n : String) :
    n ∈ sortByWorkdays w l ↔ n ∈ l :=
  (List.perm_insertionSort _ l).mem_iff

/-- Sorting preserves the absence of duplicates. -/
theorem nodup_sortByWorkdays (w : String → Int) (l : List String)
    (h : l.Nodup) : (sortByWorkdays w l).Nodup :=
  (List.perm_insertionSort _ l).nodup_iff.mpr h

/-- A Python slice `l[:k]` is a sublist of `l`. -/
theorem pyTake_sublist {α : Type} (k : Int) (l : List α) :
    List.Sublist (pyTake k l) l :=
  List.take_sublist _ l

/-- The available list is a sublist of the registry name list (it filters
the staff list before projecting to names). -/
theorem available_sublist_names (m : StaffAssignmentManager) (d : Nat) :
    List.Sublist (available_for m d) m.staff_names :=
  (List.filter_sublist m.staff_list).map Staff.name

/-- The eligible list is a sublist of the available list. -/
theorem eligible_sublist_available (m : StaffAssignmentManager) (d : Nat) :
    List.Sublist (eligible_for m d) (available_for m d) :=
  List.filter_sublist _

/-- The eligible list is a sublist of the registry name list. -/
theorem eligible_sublist_names (m : StaffAssignmentManager) (d : Nat) :
    List.Sublist (eligible_for m d) m.staff_names :=
  (eligible_sublist_available m d).trans (available_sublist_names m d)

/-- Unfolding the normal-operations branch (line 135). -/
theorem assign_normal_eq (m : StaffAssignmentManager) (d : Nat) (R : Int)
    (h : R ≤ ((ranked_eligible_for m d).length : Int)) :
    assign_staff_for_day m d R
      = mk_day_result m d R (pyTake R (ranked_eligible_for m d)) false := by
  unfold assign_staff_for_day
  exact if_pos h

/-- Unfolding the overtime branch (line 142). -/
theorem assign_overtime_eq (m : StaffAssignmentManager) (d : Nat) (R : Int)
    (h : ¬ R ≤ ((ranked_eligible_for m d).length : Int)) :
    assign_staff_for_day m d R
      = mk_day_result m d R (pyTake R (ranked_available_for m d)) true := by
  unfold assign_staff_for_day
  exact if_neg h

/-- Processing a day never changes the staff list. -/
theorem assign_staff_list_eq (m : StaffAssignmentManager) (d : Nat) (R : Int) :
    (assign_staff_for_day m d R).2.staff_list = m.staff_list := by
  unfold assign_staff_for_day mk_day_result update_state
  split <;> rfl

/-- Processing a day never changes the registry name list. -/
theorem assign_staff_names_eq (m : StaffAssignmentManager) (d : Nat) (R : Int) :
    (assign_staff_for_day m d R).2.staff_names = m.staff_names := by
  unfold StaffAssignmentManager.staff_names
  rw [assign_staff_list_eq]

/-- The "worked yesterday" flags after a processed day, as recomputed by
`_update_state` (lines 183-185). -/
theorem assign_flags_eq (m : StaffAssignmentManager) (d : Nat) (R : Int)
    (n : String) :
    (assign_staff_for_day m d R).2.staff_worked_yesterday n
      = if m.staff_names.contains n
        then (assign_staff_for_day m d R).1.assigned_staff.contains n
        else m.staff_worked_yesterday n := by
  unfold assign_staff_for_day mk_day_result update_state
  split <;> rfl

/-- The workday counters after a processed day, as incremented by
`_update_state` (lines 187-190). -/
theorem assign_workdays_eq (m : StaffAssignmentManager) (d : Nat) (R : Int)
    (n : String) :
    (assign_staff_for_day m d R).2.staff_workdays n
      = if m.staff_names.contains n
        then m.staff_workdays n
            + ((assign_staff_for_day m d R).1.assigned_staff.count n : Int)
        else m.staff_workdays n := by
  unfold assign_staff_for_day mk_day_result update_state
  split <;> rfl

/-- The processed day's assignment is appended to the history (line 172). -/
theorem assign_history_eq (m : StaffAssignmentManager) (d : Nat) (R : Int) :
    (assign_staff_for_day m d R).2.assignment_history
      = m.assignment_history ++ [(assign_staff_for_day m d R).1] := by
  unfold assign_staff_for_day mk_day_result update_state
  split <;> rfl

/-- `assigned_count` is the length of the selected list (line 163). -/
theorem assign_count_eq (m : StaffAssignmentManager) (d : Nat) (R : Int) :
    (assign_staff_for_day m d R).1.assigned_count
      = (assign_staff_for_day m d R).1.assigned_staff.length := by
  unfold assign_staff_for_day mk_day_result
  split <;> rfl

/-- Every selected name is a registry name: the selection is drawn from a
slice of a permutation of the eligible or available list. -/
theorem assigned_mem_names (m : StaffAssignmentManager) (d : Nat) (R : Int)
    (n : String) (hn : n ∈ (assign_staff_for_day m d R).1.assigned_staff) :
    n ∈ m.staff_names := by
  by_cases h : R ≤ ((ranked_eligible_for m d).length : Int)
  · rw [assign_normal_eq m d R h] at hn
    have h1 : n ∈ ranked_eligible_for m d := (pyTake_sublist R _).mem hn
    have h2 : n ∈ eligible_for m d := (mem_sortByWorkdays _ _ n).mp h1
    exact (eligible_sublist_names m d).mem h2
  · rw [assign_overtime_eq m d R h] at hn
    have h1 : n ∈ ranked_available_for m d := (pyTake_sublist R _).mem hn
    have h2 : n ∈ available_for m d := (mem_sortByWorkdays _ _ n).mp h1
    exact (available_sublist_names m d).mem h2

/-- In a duplicate-free list, a pair that occurs in order in the longer
list also occurs in order in any sublist containing both elements. -/
theorem pair_sublist_of_sublist {α : Type} {a b : α} :
    ∀ {s t : List α}, List.Sublist s t → t.Nodup →
      List.Sublist [a, b] t → a ∈ s → b ∈ s → List.Sublist [a, b] s := by
  intro s t h
  induction h with
  | slnil =>
    intro _ _ ha _
    exact absurd ha (List.not_mem_nil a)
  | cons x h ih =>
    intro hnd hab ha hb
    rcases List.nodup_cons.mp hnd with ⟨hx, hnd2⟩
    cases hab with
    | cons _ hab2 => exact ih hnd2 hab2 ha hb
    | cons₂ _ hab2 =>
      exact absurd (h.mem ha) hx
  | cons₂ x h ih =>
    intro hnd hab ha hb
    rcases List.nodup_cons.mp hnd with ⟨hx, hnd2⟩
    cases hab with
    | cons _ hab2 =>
      have hat : a ∈ _ := hab2.mem (List.mem_cons_self a [b])
      have hbt : b ∈ _ := hab2.mem (List.mem_cons_of_mem a (List.mem_cons_self b []))
      have ha2 : a ∈ _ := (List.mem_cons.mp ha).resolve_left (fun e => hx (e ▸ hat))
      have hb2 : b ∈ _ := (List.mem_cons.mp hb).resolve_left (fun e => hx (e ▸ hbt))
      exact (ih hnd2 hab2 ha2 hb2).cons x
    | cons₂ _ hab2 =>
      have hbt : b ∈ _ := List.singleton_sublist.mp hab2
      have hb2 : b ∈ _ := (List.mem_cons.mp hb).resolve_left (fun e => hx (e ▸ hbt))
      exact List.Sublist.cons₂ a (List.singleton_sublist.mpr hb2)

/-- Inserting `a` into a list containing `b` of equal key places `a`
before `b`: the comparison `w a ≤ w c` succeeds no later than at `b`. -/
theorem pair_sublist_orderedInsert (w : String → Int) (a b : String)
    (hk : w a = w b) :
    ∀ s : List String, b ∈ s →
      List.Sublist [a, b] (List.orderedInsert (fun x y => w x ≤ w y) a s)
  | [], hb => absurd hb (List.not_mem_nil b)
  | c :: s2, hb => by
    rw [List.orderedInsert]
    by_cases hac : w a ≤ w c
    · rw [if_pos hac]
      exact List.Sublist.cons₂ a (List.singleton_sublist.mpr hb)
    · rw [if_neg hac]
      rcases List.mem_cons.mp hb with hbc | hb2
      · exact absurd (le_of_eq (hk.trans (congrArg w hbc))) hac
      · exact (pair_sublist_orderedInsert w a b hk s2 hb2).cons c

/-- Stability of the workload sort: two entries with equal workday counts
keep their relative order through `sortByWorkdays`. -/
theorem pair_sublist_sortByWorkdays (w : String → Int) (a b : String)
    (hk : w a = w b) :
    ∀ l : List String, List.Sublist [a, b] l →
      List.Sublist [a, b] (sortByWorkdays w l)
  | [], hab => by simpa using hab.length_le
  | x :: l2, hab => by
    show List.Sublist [a, b]
      (List.orderedInsert (fun x y => w x ≤ w y) x (sortByWorkdays w l2))
    cases hab with
    | cons _ hab2 =>
      exact (pair_sublist_sortByWorkdays w a b hk l2 hab2).trans
        (List.sublist_orderedInsert x (sortByWorkdays w l2))
    | cons₂ _ hab2 =>
      have hb : b ∈ sortByWorkdays w l2 :=
        (mem_sortByWorkdays w l2 b).mpr (List.singleton_sublist.mp hab2)
      exact pair_sublist_orderedInsert w a b hk (sortByWorkdays w l2) hb

/-- A two-member roster with no holidays, used as concrete input for the
witness theorems. -/
def sampleStaff : List Staff :=
  [{ employee_id := 1, name := "A", holiday_dates := [] },
   { employee_id := 2, name := "B", holiday_dates := [] }]

/-- The manager freshly constructed from `sampleStaff`. -/
def sampleManager : StaffAssignmentManager :=
  mkManager sampleStaff

/-- C1: For every day processed with a non-negative required headcount R
such that R ≤ |eligible| (the available staff who did not work the
previous processed day), `assign_staff_for_day` selects exactly the first
R names of the ranked eligible list, sets overtime = false, and the
resulting Assignment has assigned_count == R. -/
theorem c1_normal_branch_selection (m : StaffAssignmentManager) (d : Nat)
    (R : Int) (h0 : 0 ≤ R) (hR : R ≤ ((eligible_for m d).length : Int)) :
    (assign_staff_for_day m d R).1.assigned_staff
        = (ranked_eligible_for m d).take R.toNat
    ∧ (assign_staff_for_day m d R).1.overtime = false
    ∧ ((assign_staff_for_day m d R).1.assigned_count : Int) = R := by
  have hlen : (ranked_eligible_for m d).length = (eligible_for m d).length :=
    length_sortByWorkdays _ _
  have hR2 : R ≤ ((ranked_eligible_for m d).length : Int) := by
    rw [hlen]; exact hR
  rw [assign_normal_eq m d R hR2]
  refine ⟨?_, rfl, ?_⟩
  · show pyTake R (ranked_eligible_for m d) = _
    unfold pyTake
    rw [if_pos h0]
  · show ((pyTake R (ranked_eligible_for m d)).length : Int) = R
    unfold pyTake
    rw [if_pos h0, List.length_take]
    omega

/-- Witness for C1: on the fresh two-member roster with R = 1 the normal
branch selects exactly ["A"]. -/
theorem c1_normal_branch_selection_witness :
    ((0 : Int) ≤ 1 ∧ (1 : Int) ≤ ((eligible_for sampleManager 0).length : Int))
    ∧ ((assign_staff_for_day sampleManager 0 1).1.assigned_staff
          = (ranked_eligible_for sampleManager 0).take (1 : Int).toNat
        ∧ (assign_staff_for_day sampleManager 0 1).1.overtime = false
        ∧ ((assign_staff_for_day sampleManager 0 1).1.assigned_count : Int) = 1) :=
  ⟨⟨by decide, by decide⟩,
    c1_normal_branch_selection sampleManager 0 1 (by decide) (by decide)⟩

/-- C2: For every day processed with required headcount R > |eligible|,
`assign_staff_for_day` takes the overtime branch: it selects the first
min(R, |available|) names of the full available list re-ranked by
ascending workday count, sets overtime = true, and the resulting
Assignment has assigned_count == min(R, |available|). -/
theorem c2_overtime_branch_selection (m : StaffAssignmentManager) (d : Nat)
    (R : Int) (hR : ((eligible_for m d).length : Int) < R) :
    (assign_staff_for_day m d R).1.assigned_staff
        = (ranked_available_for m d).take R.toNat
    ∧ (assign_staff_for_day m d R).1.overtime = true
    ∧ ((assign_staff_for_day m d R).1.assigned_count : Int)
        = min R ((available_for m d).length : Int) := by
  have hlen : (ranked_eligible_for m d).length = (eligible_for m d).length :=
    length_sortByWorkdays _ _
  have hR2 : ¬ R ≤ ((ranked_eligible_for m d).length : Int) := by
    rw [hlen]; omega
  have h0 : 0 ≤ R := by omega
  have hlenA : (ranked_available_for m d).length = (available_for m d).length :=
    length_sortByWorkdays _ _
  rw [assign_overtime_eq m d R hR2]
  refine ⟨?_, rfl, ?_⟩
  · show pyTake R (ranked_available_for m d) = _
    unfold pyTake
    rw [if_pos h0]
  · show ((pyTake R (ranked_available_for m d)).length : Int)
        = min R ((available_for m d).length : Int)
    unfold pyTake
    rw [if_pos h0, List.length_take, hlenA]
    omega

/-- Witness for C2: on the fresh two-member roster with R = 3 the overtime
branch selects min(3, 2) = 2 staff. -/
theorem c2_overtime_branch_selection_witness :
    ((eligible_for sampleManager 0).length : Int) < 3
    ∧ ((assign_staff_for_day sampleManager 0 3).1.assigned_staff
          = (ranked_available_for sampleManager 0).take (3 : Int).toNat
        ∧ (assign_staff_for_day sampleManager 0 3).1.overtime = true
        ∧ ((assign_staff_for_day sampleManager 0 3).1.assigned_count : Int)
            = min 3 ((available_for sampleManager 0).length : Int)) :=
  ⟨by decide, c2_overtime_branch_selection sampleManager 0 3 (by decide)⟩

/-- C3: For every processed day, regardless of which branch (normal or
overtime) was taken, the resulting Assignment's shortage field equals
max(0, required_count − |available|), where |available| is the number of
staff not on holiday that date — not required_count minus assigned_count. -/
theorem c3_shortage_formula (m : StaffAssignmentManager) (d : Nat) (R : Int) :
    (assign_staff_for_day m d R).1.shortage
      = max 0 (R - ((available_for m d).length : Int)) := by
  unfold assign_staff_for_day mk_day_result
  split <;> rfl

/-- C4: In both the normal and the overtime branch, the selection ranking
is stable with respect to registry insertion order: for any two staff
members with equal current workday counts, the one earlier in registry
insertion order precedes the other in the ranked list and hence in the
selected list — they are never swapped. -/
theorem c4_stable_tie_break (m : StaffAssignmentManager) (d : Nat) (R : Int)
    (a b : String) (hnd : m.staff_names.Nodup)
    (hk : m.staff_workdays a = m.staff_workdays b)
    (hab : List.Sublist [a, b] m.staff_names) :
    (List.Sublist [a, b] (eligible_for m d) →
      List.Sublist [a, b] (ranked_eligible_for m d))
    ∧ (List.Sublist [a, b] (available_for m d) →
      List.Sublist [a, b] (ranked_available_for m d))
    ∧ (a ∈ (assign_staff_for_day m d R).1.assigned_staff →
        b ∈ (assign_staff_for_day m d R).1.assigned_staff →
        List.Sublist [a, b] (assign_staff_for_day m d R).1.assigned_staff) := by
  refine ⟨fun h => pair_sublist_sortByWorkdays _ a b hk _ h,
    fun h => pair_sublist_sortByWorkdays _ a b hk _ h, fun ha hb => ?_⟩
  by_cases h : R ≤ ((ranked_eligible_for m d).length : Int)
  · rw [assign_normal_eq m d R h] at ha hb ⊢
    have haE : a ∈ eligible_for m d :=
      (mem_sortByWorkdays _ _ a).mp ((pyTake_sublist R _).mem ha)
    have hbE : b ∈ eligible_for m d :=
      (mem_sortByWorkdays _ _ b).mp ((pyTake_sublist R _).mem hb)
    have hpair : List.Sublist [a, b] (eligible_for m d) :=
      pair_sublist_of_sublist (eligible_sublist_names m d) hnd hab haE hbE
    have hranked : List.Sublist [a, b] (ranked_eligible_for m d) :=
      pair_sublist_sortByWorkdays _ a b hk _ hpair
    have hndR : (ranked_eligible_for m d).Nodup :=
      nodup_sortByWorkdays _ _ (hnd.sublist (eligible_sublist_names m d))
    exact pair_sublist_of_sublist (pyTake_sublist R _) hndR hranked ha hb
  · rw [assign_overtime_eq m d R h] at ha hb ⊢
    have haA : a ∈ available_for m d :=
      (mem_sortByWorkdays _ _ a).mp ((pyTake_sublist R _).mem ha)
    have hbA : b ∈ available_for m d :=
      (mem_sortByWorkdays _ _ b).mp ((pyTake_sublist R _).mem hb)
    have hpair : List.Sublist [a, b] (available_for m d) :=
      pair_sublist_of_sublist (available_sublist_names m d) hnd hab haA hbA
    have hranked : List.Sublist [a, b] (ranked_available_for m d) :=
      pair_sublist_sortByWorkdays _ a b hk _ hpair
    have hndR : (ranked_available_for m d).Nodup :=
      nodup_sortByWorkdays _ _ (hnd.sublist (available_sublist_names m d))
    exact pair_sublist_of_sublist (pyTake_sublist R _) hndR hranked ha hb

/-- Witness for C4: the two fresh members both have count 0 and are both
selected with R = 2; they appear in registry order in the selection. -/
theorem c4_stable_tie_break_witness :
    (sampleManager.staff_names.Nodup
      ∧ List.Sublist ["A", "B"] sampleManager.staff_names)
    ∧ List.Sublist ["A", "B"]
        (assign_staff_for_day sampleManager 0 2).1.assigned_staff :=
  ⟨⟨by decide, by decide⟩,
    (c4_stable_tie_break sampleManager 0 2 "A" "B" (by decide) rfl
      (by decide)).2.2 (by decide) (by decide)⟩

/-- C5: After every processed day, a staff member's "worked yesterday"
flag is true if and only if that member's name appears in the most
recently processed Assignment's selected list (the day's assignment,
which becomes the last entry of the history); the flags of all registry
members are recomputed on every day processed. -/
theorem c5_worked_yesterday_flags (m : StaffAssignmentManager) (d : Nat)
    (R : Int) (n : String) (hn : n ∈ m.staff_names) :
    ((assign_staff_for_day m d R).2.staff_worked_yesterday n = true
      ↔ n ∈ (assign_staff_for_day m d R).1.assigned_staff)
    ∧ (assign_staff_for_day m d R).2.assignment_history
        = m.assignment_history ++ [(assign_staff_for_day m d R).1] := by
  refine ⟨?_, assign_history_eq m d R⟩
  rw [assign_flags_eq m d R n]
  have hc : m.staff_names.contains n = true := by simp [hn]
  rw [if_pos hc]
  simp

/-- Witness for C5: member "B" is not selected on a 1-person day and its
flag is false afterwards. -/
theorem c5_worked_yesterday_flags_witness :
    "B" ∈ sampleManager.staff_names
    ∧ (((assign_staff_for_day sampleManager 0 1).2.staff_worked_yesterday "B"
          = true
        ↔ "B" ∈ (assign_staff_for_day sampleManager 0 1).1.assigned_staff)
      ∧ (assign_staff_for_day sampleManager 0 1).2.assignment_history
          = sampleManager.assignment_history
              ++ [(assign_staff_for_day sampleManager 0 1).1]) :=
  ⟨by decide, c5_worked_yesterday_flags sampleManager 0 1 "B" (by decide)⟩

/-! Counting and summation lemmas for the workload invariant (C6). -/

/-- Summing a pointwise sum of maps splits into two sums. -/
theorem sum_map_add (f g : String → Int) :
    ∀ l : List String,
      (l.map (fun n => f n + g n)).sum = (l.map f).sum + (l.map g).sum
  | [] => by simp
  | x :: l => by
    simp only [List.map_cons, List.sum_cons, sum_map_add f g l]
    ring

/-- The indicator of an absent element sums to zero. -/
theorem sum_indicator_zero (x : String) :
    ∀ names : List String, x ∉ names →
      (names.map (fun n => if x == n then (1 : Int) else 0)).sum = 0
  | [], _ => rfl
  | y :: rest, h => by
    have hxy : ¬ x = y := fun e => h (e ▸ List.mem_cons_self y rest)
    have hz := sum_indicator_zero x rest (fun hm => h (List.mem_cons_of_mem y hm))
    simp only [List.map_cons, List.sum_cons, hz]
    simp [hxy]

/-- The indicator of an element of a duplicate-free list sums to one. -/
theorem sum_indicator_one (x : String) :
    ∀ names : List String, names.Nodup → x ∈ names →
      (names.map (fun n => if x == n then (1 : Int) else 0)).sum = 1
  | [], _, hx => absurd hx (List.not_mem_nil x)
  | y :: rest, hnd, hx => by
    rcases List.nodup_cons.mp hnd with ⟨hy, hnd2⟩
    simp only [List.map_cons, List.sum_cons]
    rcases List.mem_cons.mp hx with rfl | hx2
    · rw [sum_indicator_zero x rest hy]
      simp
    · have hxy : ¬ x = y := fun e => hy (e ▸ hx2)
      rw [sum_indicator_one x rest hnd2 hx2]
      simp [hxy]

/-- Adding the per-name occurrence counts of `assigned` to the key `w`
adds exactly `assigned.length` to the total, provided the name list is
duplicate-free and contains every assigned name. -/
theorem sum_add_count (names : List String) (hnd : names.Nodup) :
    ∀ (assigned : List String) (w : String → Int),
      (∀ y ∈ assigned, y ∈ names) →
      (names.map (fun n => w n + (assigned.count n : Int))).sum
        = (names.map w).sum + assigned.length
  | [], w, _ => by simp
  | x :: rest, w, hsub => by
    have hx : x ∈ names := hsub x (List.mem_cons_self x rest)
    have hrw : (fun n => w n + (((x :: rest).count n : Nat) : Int))
        = fun n => (w n + if x == n then (1 : Int) else 0)
            + (rest.count n : Int) := by
      funext n
      cases hxn : x == n
      · simp [List.count_cons, hxn]
      · simp only [List.count_cons, hxn, if_true]
        push_cast
        ring
    rw [hrw,
      sum_add_count names hnd rest _
        (fun y hy => hsub y (List.mem_cons_of_mem x hy)),
      sum_map_add, sum_indicator_one x names hnd hx]
    simp only [List.length_cons]
    push_cast
    ring

/-- One processed day adds the day's `assigned_count` to the total of the
workday counters over the registry names. -/
theorem step_sum (m : StaffAssignmentManager) (d : Nat) (R : Int)
    (hnd : m.staff_names.Nodup) :
    (m.staff_names.map (assign_staff_for_day m d R).2.staff_workdays).sum
      = (m.staff_names.map m.staff_workdays).sum
        + ((assign_staff_for_day m d R).1.assigned_count : Int) := by
  have h1 : m.staff_names.map (assign_staff_for_day m d R).2.staff_workdays
      = m.staff_names.map (fun n => m.staff_workdays n
          + ((assign_staff_for_day m d R).1.assigned_staff.count n : Int)) := by
    apply List.map_congr_left
    intro n hn
    rw [assign_workdays_eq, if_pos (by simp [hn])]
  rw [h1,
    sum_add_count m.staff_names hnd _ _ (fun y hy => assigned_mem_names m d R y hy),
    assign_count_eq]

/-- One processed day never decreases any workday counter. -/
theorem workdays_mono_step (m : StaffAssignmentManager) (d : Nat) (R : Int)
    (n : String) :
    m.staff_workdays n ≤ (assign_staff_for_day m d R).2.staff_workdays n := by
  rw [assign_workdays_eq]
  split <;> omega

/-- A whole run never decreases any workday counter. -/
theorem workdays_mono_run :
    ∀ (reqs : List (Nat × Int)) (m : StaffAssignmentManager) (n : String),
      m.staff_workdays n ≤ (run_days m reqs).2.staff_workdays n
  | [], _, _ => le_refl _
  | (d, R) :: rest, m, n =>
    le_trans (workdays_mono_step m d R n)
      (workdays_mono_run rest (assign_staff_for_day m d R).2 n)

/-- A run over a concatenation of two request sequences is the run of the
first followed by the run of the second from the intermediate state. -/
theorem run_days_append :
    ∀ (xs ys : List (Nat × Int)) (m : StaffAssignmentManager),
      run_days m (xs ++ ys)
        = ((run_days m xs).1 ++ (run_days (run_days m xs).2 ys).1,
           (run_days (run_days m xs).2 ys).2)
  | [], ys, m => by simp [run_days]
  | (d, R) :: xs, ys, m => by
    simp only [List.cons_append, run_days, List.append_eq]
    rw [run_days_append xs ys (assign_staff_for_day m d R).2]

/-- A run never changes the staff list. -/
theorem run_staff_list_eq :
    ∀ (reqs : List (Nat × Int)) (m : StaffAssignmentManager),
      (run_days m reqs).2.staff_list = m.staff_list
  | [], _ => rfl
  | (d, R) :: rest, m => by
    show (run_days (assign_staff_for_day m d R).2 rest).2.staff_list = _
    rw [run_staff_list_eq rest (assign_staff_for_day m d R).2,
      assign_staff_list_eq]

/-- Over a run, the total of the workday counters grows by exactly the
total of the per-day assigned counts. -/
theorem run_sum :
    ∀ (reqs : List (Nat × Int)) (m : StaffAssignmentManager),
      m.staff_names.Nodup →
      (m.staff_names.map (run_days m reqs).2.staff_workdays).sum
        = (m.staff_names.map m.staff_workdays).sum
          + ((run_days m reqs).1.map (fun a => (a.assigned_count : Int))).sum
  | [], m, _ => by simp [run_days]
  | (d, R) :: rest, m, hnd => by
    have hnames : (assign_staff_for_day m d R).2.staff_names = m.staff_names :=
      assign_staff_names_eq m d R
    have hnd2 : (assign_staff_for_day m d R).2.staff_names.Nodup := by
      rw [hnames]; exact hnd
    have ih := run_sum rest (assign_staff_for_day m d R).2 hnd2
    rw [hnames] at ih
    simp only [run_days]
    show (m.staff_names.map
        (run_days (assign_staff_for_day m d R).2 rest).2.staff_workdays).sum = _
    rw [ih, step_sum m d R hnd]
    simp only [List.map_cons, List.sum_cons]
    ring

/-- C6: For a registry with unique staff names, starting from reset state,
after any N processed days every per-staff workday counter is a
non-negative integer, each counter is monotonically non-decreasing across
days, and the sum of all workday counters equals the sum of
assigned_count over those N Assignments. -/
theorem c6_workday_counter_invariants (m : StaffAssignmentManager)
    (reqs : List (Nat × Int)) (hnd : m.staff_names.Nodup) :
    (∀ n, 0 ≤ (run_days (reset_state m) reqs).2.staff_workdays n)
    ∧ (∀ (more : List (Nat × Int)) (n : String),
        (run_days (reset_state m) reqs).2.staff_workdays n
          ≤ (run_days (reset_state m) (reqs ++ more)).2.staff_workdays n)
    ∧ (m.staff_names.map (run_days (reset_state m) reqs).2.staff_workdays).sum
        = ((run_days (reset_state m) reqs).1.map
            (fun a => (a.assigned_count : Int))).sum := by
  refine ⟨fun n => ?_, fun more n => ?_, ?_⟩
  · exact workdays_mono_run reqs (reset_state m) n
  · rw [run_days_append]
    exact workdays_mono_run more (run_days (reset_state m) reqs).2 n
  · have hnd2 : (reset_state m).staff_names.Nodup := hnd
    have h := run_sum reqs (reset_state m) hnd2
    have hz : ((reset_state m).staff_names.map
        (reset_state m).staff_workdays).sum = 0 := by
      have he : (reset_state m).staff_workdays = fun _ => (0 : Int) := rfl
      rw [he]
      simp
    rw [hz, zero_add] at h
    exact h

/-- Witness for C6: one processed day on the fresh two-member roster. -/
theorem c6_workday_counter_invariants_witness :
    sampleManager.staff_names.Nodup
    ∧ 0 ≤ (run_days (reset_state sampleManager) [(0, 1)]).2.staff_workdays "A"
    ∧ (run_days (reset_state sampleManager) [(0, 1)]).2.staff_workdays "A"
        ≤ (run_days (reset_state sampleManager) ([(0, 1)] ++ [(1, 2)])).2.staff_workdays "A"
    ∧ (sampleManager.staff_names.map
        (run_days (reset_state sampleManager) [(0, 1)]).2.staff_workdays).sum
        = ((run_days (reset_state sampleManager) [(0, 1)]).1.map
            (fun a => (a.assigned_count : Int))).sum :=
  ⟨by decide,
    (c6_workday_counter_invariants sampleManager [(0, 1)] (by decide)).1 "A",
    (c6_workday_counter_invariants sampleManager [(0, 1)] (by decide)).2.1 [(1, 2)] "A",
    (c6_workday_counter_invariants sampleManager [(0, 1)] (by decide)).2.2⟩

/-- C7: The engine is deterministic and reproducible: calling reset_state
and then replaying the identical ordered sequence of day requests against
the identical registry produces an identical sequence of Assignments
(same selected lists in the same order, same counts, overtime flags, and
shortages) as any previous run of that sequence. -/
theorem c7_reset_replay_deterministic (m1 m2 : StaffAssignmentManager)
    (reqs : List (Nat × Int)) (h : m1.staff_list = m2.staff_list) :
    run_days (reset_state m1) reqs = run_days (reset_state m2) reqs := by
  have he : reset_state m1 = reset_state m2 := by
    cases m1
    cases m2
    simp_all [reset_state]
  rw [he]

/-- Witness for C7: replay after a prior mutating day reproduces the run
of a fresh manager over the same registry. -/
theorem c7_reset_replay_deterministic_witness :
    (assign_staff_for_day sampleManager 0 1).2.staff_list
        = sampleManager.staff_list
    ∧ run_days (reset_state (assign_staff_for_day sampleManager 0 1).2)
          [(0, 2), (1, 1)]
        = run_days (reset_state sampleManager) [(0, 2), (1, 1)] :=
  ⟨by decide,
    c7_reset_replay_deterministic (assign_staff_for_day sampleManager 0 1).2
      sampleManager [(0, 2), (1, 1)] (by decide)⟩

/-- C8, counterexample: the source performs no validation of a negative
required headcount.  With R = -1 on the fresh two-member roster the
normal branch runs (Python slice semantics select all but the last
eligible name), a member is selected, the counters, flags and history all
mutate, and no error is surfaced. -/
theorem c8_counterexample_negative_required :
    (assign_staff_for_day sampleManager 0 (-1)).1.assigned_staff = ["A"]
    ∧ (assign_staff_for_day sampleManager 0 (-1)).2.staff_workdays "A" = 1
    ∧ sampleManager.staff_workdays "A" = 0
    ∧ (assign_staff_for_day sampleManager 0 (-1)).2.staff_worked_yesterday "A"
        = true
    ∧ (assign_staff_for_day sampleManager 0 (-1)).2.assignment_history.length
        = 1 := by
  decide

/-- C8, amended: no validation of a negative required headcount exists
anywhere in the code.  `assign_staff_for_day` accepts a negative R and
proceeds: R ≤ |eligible| holds vacuously, so the normal branch runs with
overtime = false, the selection is the Python slice `eligible[:R]` (all
but the last |R| ranked eligible names, empty when |R| ≥ |eligible|),
shortage is 0, and the state is mutated as on any other day (the day's
assignment is appended to the history). -/
theorem c8_amended_negative_required_processed (m : StaffAssignmentManager)
    (d : Nat) (R : Int) (hR : R < 0) :
    (assign_staff_for_day m d R).1.overtime = false
    ∧ (assign_staff_for_day m d R).1.assigned_staff
        = (ranked_eligible_for m d).take
            (((ranked_eligible_for m d).length : Int) + R).toNat
    ∧ (assign_staff_for_day m d R).1.shortage = 0
    ∧ (assign_staff_for_day m d R).2.assignment_history
        = m.assignment_history ++ [(assign_staff_for_day m d R).1] := by
  have h : R ≤ ((ranked_eligible_for m d).length : Int) := by omega
  refine ⟨?_, ?_, ?_, assign_history_eq m d R⟩
  · rw [assign_normal_eq m d R h]
    rfl
  · rw [assign_normal_eq m d R h]
    show pyTake R (ranked_eligible_for m d) = _
    unfold pyTake
    rw [if_neg (by omega)]
  · rw [assign_normal_eq m d R h]
    show max 0 (R - ((available_for m d).length : Int)) = 0
    exact max_eq_left (by omega)

/-- Witness for the amended C8 at R = -1 on the fresh roster. -/
theorem c8_amended_negative_required_processed_witness :
    (-1 : Int) < 0
    ∧ ((assign_staff_for_day sampleManager 0 (-1)).1.overtime = false
      ∧ (assign_staff_for_day sampleManager 0 (-1)).1.assigned_staff
          = (ranked_eligible_for sampleManager 0).take
              (((ranked_eligible_for sampleManager 0).length : Int) + (-1)).toNat
      ∧ (assign_staff_for_day sampleManager 0 (-1)).1.shortage = 0
      ∧ (assign_staff_for_day sampleManager 0 (-1)).2.assignment_history
          = sampleManager.assignment_history
              ++ [(assign_staff_for_day sampleManager 0 (-1)).1]) :=
  ⟨by decide,
    c8_amended_negative_required_processed sampleManager 0 (-1) (by decide)⟩

/-- A roster with two members sharing the display name "A". -/
def dupStaff : List Staff :=
  [{ employee_id := 1, name := "A", holiday_dates := [] },
   { employee_id := 2, name := "A", holiday_dates := [] }]

/-- C9, counterexample: constructing the manager from a staff list with a
duplicated name does not fail.  The constructor runs no check: the
resulting manager keeps both occurrences in staff_names, the name-keyed
lookup silently maps "A" to the later member, and the manager is usable
(it processes a day request). -/
theorem c9_counterexample_duplicate_names :
    (mkManager dupStaff).staff_names = ["A", "A"]
    ∧ staff_lookup dupStaff "A"
        = some { employee_id := 2, name := "A", holiday_dates := [] }
    ∧ (assign_staff_for_day (mkManager dupStaff) 0 1).1.assigned_count = 1
    ∧ (mkManager dupStaff).assignment_history = [] := by
  decide

/-- C9, amended: construction from a staff list containing two members
with the same name succeeds and produces a usable manager; staff_names
keeps both occurrences, and the name-keyed lookup maps the duplicated
name to the later of the two members (a Python dict comprehension's
last-wins overwrite), rather than failing. -/
theorem c9_amended_duplicate_names_accepted (s1 s2 : Staff)
    (h : s1.name = s2.name) :
    (mkManager [s1, s2]).staff_names = [s1.name, s2.name]
    ∧ staff_lookup [s1, s2] s1.name = some s2 := by
  refine ⟨rfl, ?_⟩
  simp [staff_lookup, h]

/-- Witness for the amended C9 on the concrete duplicated roster. -/
theorem c9_amended_duplicate_names_accepted_witness :
    ({ employee_id := 1, name := "A", holiday_dates := [] } : Staff).name
        = ({ employee_id := 2, name := "A", holiday_dates := [] } : Staff).name
    ∧ ((mkManager dupStaff).staff_names
          = [({ employee_id := 1, name := "A", holiday_dates := [] } : Staff).name,
             ({ employee_id := 2, name := "A", holiday_dates := [] } : Staff).name]
      ∧ staff_lookup dupStaff
            ({ employee_id := 1, name := "A", holiday_dates := [] } : Staff).name
          = some { employee_id := 2, name := "A", holiday_dates := [] }) :=
  ⟨rfl, c9_amended_duplicate_names_accepted
    { employee_id := 1, name := "A", holiday_dates := [] }
    { employee_id := 2, name := "A", holiday_dates := [] } rfl⟩

/-- C10: Processing a day with required headcount 0 returns an Assignment
with an empty selected list, assigned_count = 0, overtime = false, and
shortage = 0, and as a side effect sets every registry member's "worked
yesterday" flag to false — so after a zero-demand day every available
staff member is eligible on the next processed day. -/
theorem c10_zero_demand_day (m : StaffAssignmentManager) (d : Nat) :
    (assign_staff_for_day m d 0).1.assigned_staff = []
    ∧ (assign_staff_for_day m d 0).1.assigned_count = 0
    ∧ (assign_staff_for_day m d 0).1.overtime = false
    ∧ (assign_staff_for_day m d 0).1.shortage = 0
    ∧ (∀ n, n ∈ m.staff_names →
        (assign_staff_for_day m d 0).2.staff_worked_yesterday n = false)
    ∧ (∀ d2, eligible_for (assign_staff_for_day m d 0).2 d2
        = available_for (assign_staff_for_day m d 0).2 d2) := by
  have h : (0 : Int) ≤ ((ranked_eligible_for m d).length : Int) := by positivity
  have hstaff : (assign_staff_for_day m d 0).1.assigned_staff = [] := by
    rw [assign_normal_eq m d 0 h]
    show pyTake 0 (ranked_eligible_for m d) = []
    unfold pyTake
    simp
  have hflags : ∀ n, n ∈ m.staff_names →
      (assign_staff_for_day m d 0).2.staff_worked_yesterday n = false := by
    intro n hn
    rw [assign_flags_eq m d 0 n, if_pos (by simp [hn]), hstaff]
    rfl
  refine ⟨hstaff, ?_, ?_, ?_, hflags, ?_⟩
  · rw [assign_count_eq, hstaff]
    rfl
  · rw [assign_normal_eq m d 0 h]
    rfl
  · rw [assign_normal_eq m d 0 h]
    show max 0 (0 - ((available_for m d).length : Int)) = 0
    exact max_eq_left (by omega)
  · intro d2
    show ((available_for (assign_staff_for_day m d 0).2 d2).filter
        (fun name => !((assign_staff_for_day m d 0).2.staff_worked_yesterday name)))
      = available_for (assign_staff_for_day m d 0).2 d2
    apply List.filter_eq_self.mpr
    intro n hn2
    have hnm : n ∈ (assign_staff_for_day m d 0).2.staff_names :=
      (available_sublist_names (assign_staff_for_day m d 0).2 d2).mem hn2
    rw [assign_staff_names_eq] at hnm
    rw [hflags n hnm]
    rfl

/-- Witness for C10 on the fresh roster at a zero-demand day. -/
theorem c10_zero_demand_day_witness :
    "A" ∈ sampleManager.staff_names
    ∧ (assign_staff_for_day sampleManager 5 0).1.assigned_staff = []
    ∧ (assign_staff_for_day sampleManager 5 0).2.staff_worked_yesterday "A"
        = false
    ∧ eligible_for (assign_staff_for_day sampleManager 5 0).2 6
        = available_for (assign_staff_for_day sampleManager 5 0).2 6 :=
  ⟨by decide, (c10_zero_demand_day sampleManager 5).1,
    (c10_zero_demand_day sampleManager 5).2.2.2.2.1 "A" (by decide),
    (c10_zero_demand_day sampleManager 5).2.2.2.2.2 6⟩
